import Mathlib

/-!
# XT scan-code decoder (`converter/xt_usb/matrix.c`)

A shallow embedding of the key matrix and of the byte-at-a-time decoder
`matrix_scan`, followed by theorems about them.

Conventions of the embedding:

* `uint8_t` values are natural numbers; a store into a `uint8_t` object is
  written with an explicit `% 256`.
* The two file-level objects (`matrix[]` and the function-local `static`
  `state` of `matrix_scan`) are the two fields of `Decoder`; every function
  takes the old value and returns the new one.
* An array access outside `matrix[0 .. MATRIX_ROWS-1]` has no defined result
  in C; the embedding returns `none` there.
* The byte returned by `xt_host_recv()` is the second argument of
  `matrix_scan`; `0` is what the host returns when no byte is pending.
-/

namespace XtUsb

/-- Modelled from the spec: `MATRIX_ROWS` comes from `config.h`, which is not
part of the sources at hand.  Codes are seven bits wide and a row holds eight
of them, so the matrix has sixteen rows. -/
def MATRIX_ROWS : Nat := 16

/-- Width of the C type `int` on the target (AVR).  Only used to take the
bitwise complement in `matrix_break`; every width of at least eight bits
stores the same byte. -/
def INT_BITS : Nat := 16

/-- `#define ROW(code) (code>>3)` -/
def ROW (code : Nat) : Nat := code >>> 3

/-- `#define COL(code) (code&0x07)` -/
def COL (code : Nat) : Nat := code &&& 0x07

/-- The states of the decoder: the anonymous `enum` inside `matrix_scan`. -/
inductive ScanState where
  | INIT
  | E0
  | E1
  | E1_1D
  | E1_9D
  deriving DecidableEq, Repr

/-- The mutable objects of the translation unit: `static uint8_t
matrix[MATRIX_ROWS]` and the `static` variable `state` of `matrix_scan`. -/
structure Decoder where
  state : ScanState
  matrix : List Nat
  deriving DecidableEq, Repr

/-- `uint8_t matrix_get_row(uint8_t row) { return matrix[row]; }` -/
def matrix_get_row (matrix : List Nat) (row : Nat) : Option Nat :=
  matrix[row]?

/-- Modelled from the spec: `matrix_is_on` is declared in `matrix.h` and
defined outside the sources at hand.  The spec has the bit at `(row, col)`
equal to 1 exactly when the key is pressed, so the function reads that bit of
the row: `matrix_get_row(row) & (1<<col)`, converted to `bool`. -/
def matrix_is_on (matrix : List Nat) (row col : Nat) : Option Bool :=
  match matrix_get_row matrix row with
  | none => none
  | some v => some (v &&& (1 <<< col) != 0)

/-- The body of `matrix_make`:
`if (!matrix_is_on(ROW(code), COL(code))) matrix[ROW(code)] |= 1<<COL(code);` -/
def matrix_make (matrix : List Nat) (code : Nat) : Option (List Nat) :=
  match matrix_is_on matrix (ROW code) (COL code) with
  | none => none
  | some true => some matrix
  | some false =>
    match matrix[ROW code]? with
    | none => none
    | some v => some (matrix.set (ROW code) ((v ||| (1 <<< COL code)) % 256))

/-- The body of `matrix_break`:
`if (matrix_is_on(ROW(code), COL(code))) matrix[ROW(code)] &= ~(1<<COL(code));`
The complement is taken in `int`. -/
def matrix_break (matrix : List Nat) (code : Nat) : Option (List Nat) :=
  match matrix_is_on matrix (ROW code) (COL code) with
  | none => none
  | some false => some matrix
  | some true =>
    match matrix[ROW code]? with
    | none => none
    | some v =>
      some (matrix.set (ROW code)
        ((v &&& ((2 ^ INT_BITS - 1) ^^^ (1 <<< COL code))) % 256))

/-- The loop `for (uint8_t i=0; i < MATRIX_ROWS; i++) matrix[i] = 0x00;`
shared by `matrix_init` and `matrix_clear`. -/
def zero_rows (matrix : List Nat) : List Nat :=
  (List.range MATRIX_ROWS).foldl (fun m i => m.set i 0x00) matrix

/-- `matrix_init`: sets `debug_enable`, calls `xt_host_init()` (both outside
the decoder) and zeroes the matrix.  The variable `state` is local to
`matrix_scan` and is not in scope here. -/
def matrix_init (d : Decoder) : Decoder :=
  { d with matrix := zero_rows d.matrix }

/-- `matrix_clear` -/
def matrix_clear (d : Decoder) : Decoder :=
  { d with matrix := zero_rows d.matrix }

/-- `move_e0code`: convert E0-escaped codes into the unused area. -/
def move_e0code (code : Nat) : Nat :=
  match code with
  | 0x37 => 0x54 -- Print Screen
  | 0x46 => 0x55 -- Ctrl + Pause
  | 0x1C => 0x6F -- Keypad Enter
  | 0x35 => 0x7F -- Keypad /
  | 0x5B => 0x5A -- Left  GUI
  | 0x5C => 0x5B -- Right GUI
  | 0x5D => 0x5C -- Application
  | 0x5E => 0x5D -- Power(not used)
  | 0x5F => 0x5E -- Sleep(not used)
  | 0x63 => 0x5F -- Wake (not used)
  | 0x48 => 0x60 -- Up
  | 0x4B => 0x61 -- Left
  | 0x50 => 0x62 -- Down
  | 0x4D => 0x63 -- Right
  | 0x52 => 0x71 -- Insert
  | 0x53 => 0x72 -- Delete
  | 0x47 => 0x74 -- Home
  | 0x4F => 0x75 -- End
  | 0x49 => 0x77 -- Home
  | 0x51 => 0x78 -- End
  | 0x1D => 0x7A -- Right Ctrl
  | 0x38 => 0x7C -- Right Alt
  | _ => code

/-- The `case` labels of the `switch` in `move_e0code`, in source order. -/
def e0_cases : List Nat :=
  [0x37, 0x46, 0x1C, 0x35, 0x5B, 0x5C, 0x5D, 0x5E, 0x5F, 0x63, 0x48, 0x4B,
   0x50, 0x4D, 0x52, 0x53, 0x47, 0x4F, 0x49, 0x51, 0x1D, 0x38]

/-- The pairs `(label, image)` of the cases of `move_e0code` whose image has
no `case` of its own, so that the image passes through `move_e0code`
unchanged, in source order. -/
def e0_collisions : List (Nat × Nat) :=
  (e0_cases.filter (fun t => decide (move_e0code t ∉ e0_cases))).map
    (fun t => (t, move_e0code t))

/-- Store a new matrix and a new state, and return 1 (`return 1;` at the end
of `matrix_scan`). -/
def scanned (state : ScanState) (matrix : Option (List Nat)) :
    Option (Nat × Decoder) :=
  match matrix with
  | none => none
  | some m => some (1, { state := state, matrix := m })

/-- `matrix_scan`, with `code` the value returned by `xt_host_recv()`.
The result is the returned `uint8_t` and the new value of the globals.
Each `switch (code)` is the chain of tests on `code` in the order of its
`case` labels; an arm that does not assign `state` keeps `d.state`.  The
`default:` arm of the outer `switch (state)` has no enumerator left to match
and the `xprintf` trace has no effect on the decoder. -/
def matrix_scan (d : Decoder) (code : Nat) : Option (Nat × Decoder) :=
  if code = 0 then some (0, d)
  else
    match d.state with
    | .INIT =>
      if code = 0xE0 then scanned .E0 (some d.matrix)
      else if code = 0xE1 then scanned .E1 (some d.matrix)
      else if code < 0x80 then scanned d.state (matrix_make d.matrix code)
      else scanned d.state (matrix_break d.matrix (code &&& 0x7F))
    | .E0 =>
      if code = 0x2A ∨ code = 0xAA ∨ code = 0x36 ∨ code = 0xB6 then
        -- ignore fake shift
        scanned .INIT (some d.matrix)
      else if code < 0x80 then
        scanned .INIT (matrix_make d.matrix (move_e0code code))
      else
        scanned .INIT (matrix_break d.matrix (move_e0code (code &&& 0x7F)))
    | .E1 =>
      if code = 0x1D then scanned .E1_1D (some d.matrix)
      else if code = 0x9D then scanned .E1_9D (some d.matrix)
      else scanned .INIT (some d.matrix)
    | .E1_1D =>
      if code = 0x45 then scanned d.state (matrix_make d.matrix 0x55)
      else scanned .INIT (some d.matrix)
    | .E1_9D =>
      if code = 0x45 then scanned d.state (matrix_break d.matrix 0x55)
      else scanned .INIT (some d.matrix)

/-- A call on the matrix made by an arm of `matrix_scan`: `matrix_make(code)`
or `matrix_break(code)`. -/
inductive MatrixCall where
  | make (code : Nat)
  | brk (code : Nat)
  deriving DecidableEq, Repr

/-- The argument of a call. -/
def MatrixCall.code : MatrixCall → Nat
  | .make code => code
  | .brk code => code

/-- The call of `matrix_make` or `matrix_break` in the arm of `matrix_scan`
that is reached in state `state` with `code` received, read off the source
arm by arm; `none` where the arm has no such call. -/
def scan_call (state : ScanState) (code : Nat) : Option MatrixCall :=
  if code = 0 then none
  else
    match state with
    | .INIT =>
      if code = 0xE0 then none
      else if code = 0xE1 then none
      else if code < 0x80 then some (.make code)
      else some (.brk (code &&& 0x7F))
    | .E0 =>
      if code = 0x2A ∨ code = 0xAA ∨ code = 0x36 ∨ code = 0xB6 then none
      else if code < 0x80 then some (.make (move_e0code code))
      else some (.brk (move_e0code (code &&& 0x7F)))
    | .E1 => none
    | .E1_1D => if code = 0x45 then some (.make 0x55) else none
    | .E1_9D => if code = 0x45 then some (.brk 0x55) else none

/-- The effect on the matrix of the call made by an arm, if any. -/
def run_call (matrix : List Nat) : Option MatrixCall → Option (List Nat)
  | none => some matrix
  | some (.make code) => matrix_make matrix code
  | some (.brk code) => matrix_break matrix code

/-- Successive calls of `matrix_scan`, the host delivering the bytes of the
list one per call. -/
def feed (d : Decoder) : List Nat → Option Decoder
  | [] => some d
  | code :: rest =>
    match matrix_scan d code with
    | none => none
    | some r => feed r.2 rest

/-- The matrix is an array of `MATRIX_ROWS` objects of type `uint8_t`. -/
def WellFormed (matrix : List Nat) : Prop :=
  matrix.length = MATRIX_ROWS ∧ ∀ v ∈ matrix, v < 256

instance (matrix : List Nat) : Decidable (WellFormed matrix) := by
  unfold WellFormed; infer_instance

/-- The matrix with every key released. -/
def released : List Nat := List.replicate MATRIX_ROWS 0

/-! ## Bits of a row -/

theorem and_bit_ne_zero (v c : Nat) : (v &&& (1 <<< c) != 0) = v.testBit c := by
  rw [Nat.one_shiftLeft, Nat.and_two_pow]
  cases h : v.testBit c <;> simp

theorem COL_lt (code : Nat) : COL code < 8 := by
  unfold COL
  exact Nat.and_lt_two_pow code (by decide : 7 < 2 ^ 3)

theorem ROW_lt (code : Nat) (h : code < 0x80) : ROW code < MATRIX_ROWS := by
  unfold ROW MATRIX_ROWS
  rw [Nat.shiftRight_eq_div_pow]
  omega

theorem testBit_of_byte (v c : Nat) (hv : v < 256) (hc : 8 ≤ c) :
    v.testBit c = false := by
  apply Nat.testBit_lt_two_pow
  calc v < 2 ^ 8 := hv
    _ ≤ 2 ^ c := Nat.pow_le_pow_right (by decide) hc

theorem set_bit_byte (v k : Nat) (hv : v < 256) (hk : k < 8) :
    (v ||| (1 <<< k)) % 256 = v ||| (1 <<< k) := by
  apply Nat.mod_eq_of_lt
  apply Nat.or_lt_two_pow (n := 8) hv
  rw [Nat.one_shiftLeft]
  exact Nat.pow_lt_pow_right (by decide) hk

theorem clear_bit_byte (v k : Nat) (hv : v < 256) :
    (v &&& ((2 ^ INT_BITS - 1) ^^^ (1 <<< k))) % 256
      = v &&& ((2 ^ INT_BITS - 1) ^^^ (1 <<< k)) := by
  apply Nat.mod_eq_of_lt
  rw [Nat.and_comm]
  exact Nat.and_lt_two_pow (n := 8) _ hv

theorem testBit_set_bit (v k c : Nat) :
    (v ||| (1 <<< k)).testBit c = (v.testBit c || decide (k = c)) := by
  rw [Nat.testBit_or, Nat.one_shiftLeft, Nat.testBit_two_pow]

theorem testBit_clear_bit (v k c : Nat) (hv : v < 256) :
    (v &&& ((2 ^ INT_BITS - 1) ^^^ (1 <<< k))).testBit c
      = (v.testBit c && !decide (k = c)) := by
  rw [Nat.testBit_and, Nat.testBit_xor, Nat.one_shiftLeft, Nat.testBit_two_pow,
    Nat.testBit_two_pow_sub_one]
  by_cases hc : c < INT_BITS
  · simp [hc]
  · have : v.testBit c = false :=
      testBit_of_byte v c hv (by unfold INT_BITS at hc; omega)
    simp [this]

/-! ## The matrix accessors -/

theorem matrix_is_on_eq (m : List Nat) (r c : Nat) :
    matrix_is_on m r c = (m[r]?).map (fun v => v.testBit c) := by
  unfold matrix_is_on matrix_get_row
  cases m[r]? <;> simp [and_bit_ne_zero]

theorem matrix_is_on_set (m : List Nat) (r v r' c : Nat) (hr : r < m.length) :
    matrix_is_on (m.set r v) r' c
      = if r' = r then some (v.testBit c) else matrix_is_on m r' c := by
  rw [matrix_is_on_eq, matrix_is_on_eq]
  by_cases h : r' = r
  · subst h; simp [hr]
  · simp [h, List.getElem?_set_ne (Ne.symm h)]

theorem wellFormed_set (m : List Nat) (r v : Nat) (hm : WellFormed m)
    (hv : v < 256) : WellFormed (m.set r v) := by
  refine ⟨by rw [List.length_set]; exact hm.1, ?_⟩
  intro x hx
  rcases List.mem_or_eq_of_mem_set hx with h | h
  · exact hm.2 x h
  · exact h ▸ hv

theorem wellFormed_getElem (m : List Nat) (hm : WellFormed m) (r : Nat)
    (hr : r < MATRIX_ROWS) : ∃ v, m[r]? = some v ∧ v < 256 := by
  have h : r < m.length := by rw [hm.1]; exact hr
  exact ⟨m[r], List.getElem?_eq_getElem h, hm.2 _ (List.getElem_mem h)⟩

/-- What `matrix_make` does to a well-formed matrix: it returns, the matrix
stays well formed, the bit of `code` is set and no other bit changes. -/
theorem matrix_make_spec (m : List Nat) (code : Nat) (hm : WellFormed m)
    (hc : code < 0x80) :
    ∃ m', matrix_make m code = some m' ∧ WellFormed m' ∧
      ∀ r c, matrix_is_on m' r c
        = if r = ROW code ∧ c = COL code then some true else matrix_is_on m r c := by
  obtain ⟨v, hv, hlt⟩ := wellFormed_getElem m hm (ROW code) (ROW_lt code hc)
  have hlen : ROW code < m.length := by rw [hm.1]; exact ROW_lt code hc
  have hon : matrix_is_on m (ROW code) (COL code) = some (v.testBit (COL code)) := by
    rw [matrix_is_on_eq, hv]; rfl
  cases hb : v.testBit (COL code) with
  | true =>
    refine ⟨m, ?_, hm, ?_⟩
    · unfold matrix_make; rw [hon, hb]
    · intro r c
      by_cases h : r = ROW code ∧ c = COL code
      · rw [if_pos h, h.1, h.2, hon, hb]
      · rw [if_neg h]
  | false =>
    refine ⟨m.set (ROW code) (v ||| (1 <<< COL code)), ?_, ?_, ?_⟩
    · unfold matrix_make; rw [hon, hb]; simp only [hv]
      rw [set_bit_byte v _ hlt (COL_lt code)]
    · apply wellFormed_set m _ _ hm
      rw [← set_bit_byte v _ hlt (COL_lt code)]
      exact Nat.mod_lt _ (by decide)
    · intro r c
      rw [matrix_is_on_set m _ _ r c hlen, testBit_set_bit]
      by_cases h1 : r = ROW code
      · by_cases h2 : c = COL code
        · simp [h1, h2]
        · have h3 : ¬ COL code = c := fun h => h2 h.symm
          simp [h1, h2, h3, matrix_is_on_eq, hv]
      · simp [h1]

/-- What `matrix_break` does to a well-formed matrix: it returns, the matrix
stays well formed, the bit of `code` is clear and no other bit changes. -/
theorem matrix_break_spec (m : List Nat) (code : Nat) (hm : WellFormed m)
    (hc : code < 0x80) :
    ∃ m', matrix_break m code = some m' ∧ WellFormed m' ∧
      ∀ r c, matrix_is_on m' r c
        = if r = ROW code ∧ c = COL code then some false else matrix_is_on m r c := by
  obtain ⟨v, hv, hlt⟩ := wellFormed_getElem m hm (ROW code) (ROW_lt code hc)
  have hlen : ROW code < m.length := by rw [hm.1]; exact ROW_lt code hc
  have hon : matrix_is_on m (ROW code) (COL code) = some (v.testBit (COL code)) := by
    rw [matrix_is_on_eq, hv]; rfl
  cases hb : v.testBit (COL code) with
  | false =>
    refine ⟨m, ?_, hm, ?_⟩
    · unfold matrix_break; rw [hon, hb]
    · intro r c
      by_cases h : r = ROW code ∧ c = COL code
      · rw [if_pos h, h.1, h.2, hon, hb]
      · rw [if_neg h]
  | true =>
    refine ⟨m.set (ROW code) (v &&& ((2 ^ INT_BITS - 1) ^^^ (1 <<< COL code))), ?_, ?_, ?_⟩
    · unfold matrix_break; rw [hon, hb]; simp only [hv]
      rw [clear_bit_byte v _ hlt]
    · apply wellFormed_set m _ _ hm
      rw [← clear_bit_byte v _ hlt]
      exact Nat.mod_lt _ (by decide)
    · intro r c
      rw [matrix_is_on_set m _ _ r c hlen, testBit_clear_bit v _ c hlt]
      by_cases h1 : r = ROW code
      · by_cases h2 : c = COL code
        · simp [h1, h2]
        · have h3 : ¬ COL code = c := fun h => h2 h.symm
          simp [h1, h2, h3, matrix_is_on_eq, hv]
      · simp [h1]

/-! ## Single steps of `matrix_scan` -/

theorem scan_INIT_make (d : Decoder) (c : Nat) (hs : d.state = .INIT)
    (h0 : c ≠ 0) (hc : c < 0x80) :
    matrix_scan d c = scanned .INIT (matrix_make d.matrix c) := by
  have h1 : c ≠ 0xE0 := by omega
  have h2 : c ≠ 0xE1 := by omega
  simp [matrix_scan, hs, h0, h1, h2, hc]

theorem scan_INIT_break (d : Decoder) (c : Nat) (hs : d.state = .INIT)
    (hc : 0x80 ≤ c) (h1 : c ≠ 0xE0) (h2 : c ≠ 0xE1) :
    matrix_scan d c = scanned .INIT (matrix_break d.matrix (c &&& 0x7F)) := by
  have h0 : c ≠ 0 := by omega
  have h3 : ¬ c < 0x80 := by omega
  simp [matrix_scan, hs, h0, h1, h2, h3]

theorem scan_INIT_E0 (d : Decoder) (hs : d.state = .INIT) :
    matrix_scan d 0xE0 = some (1, ⟨.E0, d.matrix⟩) := by
  simp [matrix_scan, hs, scanned]

theorem scan_INIT_E1 (d : Decoder) (hs : d.state = .INIT) :
    matrix_scan d 0xE1 = some (1, ⟨.E1, d.matrix⟩) := by
  simp [matrix_scan, hs, scanned]

theorem or_0x80 (c : Nat) (hc : c < 0x80) : c ||| 0x80 = c + 0x80 := by
  have h : ∀ x, x < 0x80 → x ||| 0x80 = x + 0x80 := by decide
  exact h c hc

theorem add_0x80_and (c : Nat) (hc : c < 0x80) : (c + 0x80) &&& 0x7F = c := by
  have h : ∀ x, x < 0x80 → (x + 0x80) &&& 0x7F = x := by decide
  exact h c hc

/-! ## The clearing loop -/

theorem zero_loop_length (n : Nat) (m : List Nat) :
    ((List.range n).foldl (fun m i => m.set i 0x00) m).length = m.length := by
  induction n with
  | zero => rfl
  | succ n ih => rw [List.range_succ, List.foldl_append]; simp [ih]

theorem zero_loop_getElem? (n : Nat) (m : List Nat) (hn : n ≤ m.length) (r : Nat) :
    ((List.range n).foldl (fun m i => m.set i 0x00) m)[r]?
      = if r < n then some 0 else m[r]? := by
  induction n with
  | zero => simp
  | succ n ih =>
    rw [List.range_succ, List.foldl_append]
    simp only [List.foldl_cons, List.foldl_nil]
    rw [List.getElem?_set, zero_loop_length, ih (by omega)]
    by_cases h : n = r
    · subst h
      have : n < m.length := by omega
      simp [this]
    · by_cases h2 : r < n
      · have : r < n + 1 := by omega
        simp [h, h2, this]
      · have : ¬ r < n + 1 := by omega
        simp [h, h2, this]

theorem zero_rows_get (m : List Nat) (hm : m.length = MATRIX_ROWS) (r : Nat)
    (hr : r < MATRIX_ROWS) : matrix_get_row (zero_rows m) r = some 0 := by
  unfold matrix_get_row zero_rows
  rw [zero_loop_getElem? MATRIX_ROWS m (by omega) r, if_pos hr]

/-! ## The remap table -/

set_option maxRecDepth 8000 in
/-- The list `e0_cases` holds exactly the codes that `move_e0code` changes. -/
theorem mem_e0_cases_iff (code : Nat) (h : code < 256) :
    code ∈ e0_cases ↔ move_e0code code ≠ code := by
  have table : ∀ x, x < 256 → (x ∈ e0_cases ↔ move_e0code x ≠ x) := by decide
  exact table code h

/-! ## The state machine -/

/-- Every transition of the decoder other than the two that end a Pause
sequence: a consumed byte leads to `INIT` unless it is a prefix in `INIT` or
the second byte of a Pause sequence. -/
theorem next_state_table (d : Decoder) (code : Nat) (hm : WellFormed d.matrix)
    (h0 : code ≠ 0) (hb : code < 256)
    (hp : ¬ ((d.state = .E1_1D ∨ d.state = .E1_9D) ∧ code = 0x45)) :
    ∃ d', matrix_scan d code = some (1, d') ∧
      d'.state =
        (if d.state = .INIT ∧ code = 0xE0 then .E0
         else if d.state = .INIT ∧ code = 0xE1 then .E1
         else if d.state = .E1 ∧ code = 0x1D then .E1_1D
         else if d.state = .E1 ∧ code = 0x9D then .E1_9D
         else .INIT) := by
  have hand : code &&& 0x7F < 0x80 := Nat.and_lt_two_pow code (by decide : 0x7F < 2 ^ 7)
  have hmv : ∀ x, x < 0x80 → move_e0code x < 0x80 := by decide
  obtain ⟨s, m⟩ := d
  simp only at hm hp ⊢
  cases s
  · -- INIT
    by_cases h1 : code = 0xE0
    · subst h1; exact ⟨_, scan_INIT_E0 ⟨.INIT, m⟩ rfl, by simp⟩
    by_cases h2 : code = 0xE1
    · subst h2; exact ⟨_, scan_INIT_E1 ⟨.INIT, m⟩ rfl, by simp⟩
    by_cases h3 : code < 0x80
    · obtain ⟨m', e, -, -⟩ := matrix_make_spec m code hm h3
      exact ⟨⟨.INIT, m'⟩, by rw [scan_INIT_make _ _ rfl h0 h3]; simp [e, scanned],
        by simp [h1, h2]⟩
    · obtain ⟨m', e, -, -⟩ := matrix_break_spec m (code &&& 0x7F) hm hand
      exact ⟨⟨.INIT, m'⟩,
        by rw [scan_INIT_break _ _ rfl (by omega) h1 h2]; simp [e, scanned],
        by simp [h1, h2]⟩
  · -- E0
    by_cases hf : code = 0x2A ∨ code = 0xAA ∨ code = 0x36 ∨ code = 0xB6
    · exact ⟨⟨.INIT, m⟩, by simp [matrix_scan, h0, hf, scanned], by simp⟩
    by_cases h3 : code < 0x80
    · obtain ⟨m', e, -, -⟩ := matrix_make_spec m (move_e0code code) hm (hmv _ h3)
      exact ⟨⟨.INIT, m'⟩, by simp [matrix_scan, h0, hf, h3, e, scanned], by simp⟩
    · obtain ⟨m', e, -, -⟩ :=
        matrix_break_spec m (move_e0code (code &&& 0x7F)) hm (hmv _ hand)
      exact ⟨⟨.INIT, m'⟩, by simp [matrix_scan, h0, hf, h3, e, scanned], by simp⟩
  · -- E1
    by_cases h1 : code = 0x1D
    · exact ⟨⟨.E1_1D, m⟩, by simp [matrix_scan, h1, scanned], by simp [h1]⟩
    by_cases h2 : code = 0x9D
    · exact ⟨⟨.E1_9D, m⟩, by simp [matrix_scan, h2, scanned], by simp [h2]⟩
    exact ⟨⟨.INIT, m⟩, by simp [matrix_scan, h0, h1, h2, scanned], by simp [h1, h2]⟩
  · -- E1_1D
    have h4 : code ≠ 0x45 := fun h => hp ⟨Or.inl rfl, h⟩
    exact ⟨⟨.INIT, m⟩, by simp [matrix_scan, h0, h4, scanned], by simp⟩
  · -- E1_9D
    have h4 : code ≠ 0x45 := fun h => hp ⟨Or.inr rfl, h⟩
    exact ⟨⟨.INIT, m⟩, by simp [matrix_scan, h0, h4, scanned], by simp⟩

/-! ## One call of `matrix_scan` -/

/-- The matrix left by `matrix_scan` is the one left by the call of its arm;
the value returned is 1 for a byte and 0 for no byte. -/
theorem matrix_scan_eq_run_call (d : Decoder) (code : Nat) :
    ∃ s', matrix_scan d code
      = (run_call d.matrix (scan_call d.state code)).map
          (fun m => (if code = 0 then 0 else 1, ⟨s', m⟩)) := by
  obtain ⟨s, m⟩ := d
  by_cases h0 : code = 0
  · exact ⟨s, by simp [matrix_scan, scan_call, run_call, h0]⟩
  cases s
  · by_cases h1 : code = 0xE0
    · exact ⟨.E0, by simp [matrix_scan, scan_call, run_call, scanned, h1]⟩
    by_cases h2 : code = 0xE1
    · exact ⟨.E1, by simp [matrix_scan, scan_call, run_call, scanned, h2]⟩
    by_cases h3 : code < 0x80
    · refine ⟨.INIT, ?_⟩
      simp only [matrix_scan, scan_call, run_call, scanned, h0, h1, h2, h3, if_true,
        if_false]
      cases matrix_make m code <;> rfl
    · refine ⟨.INIT, ?_⟩
      simp only [matrix_scan, scan_call, run_call, scanned, h0, h1, h2, h3, if_true,
        if_false]
      cases matrix_break m (code &&& 0x7F) <;> rfl
  · by_cases hf : code = 0x2A ∨ code = 0xAA ∨ code = 0x36 ∨ code = 0xB6
    · exact ⟨.INIT, by simp [matrix_scan, scan_call, run_call, scanned, h0, hf]⟩
    by_cases h3 : code < 0x80
    · refine ⟨.INIT, ?_⟩
      simp only [matrix_scan, scan_call, run_call, scanned, h0, hf, h3, if_true,
        if_false]
      cases matrix_make m (move_e0code code) <;> rfl
    · refine ⟨.INIT, ?_⟩
      simp only [matrix_scan, scan_call, run_call, scanned, h0, hf, h3, if_true,
        if_false]
      cases matrix_break m (move_e0code (code &&& 0x7F)) <;> rfl
  · by_cases h1 : code = 0x1D
    · exact ⟨.E1_1D, by simp [matrix_scan, scan_call, run_call, scanned, h1]⟩
    by_cases h2 : code = 0x9D
    · exact ⟨.E1_9D, by simp [matrix_scan, scan_call, run_call, scanned, h2]⟩
    exact ⟨.INIT, by simp [matrix_scan, scan_call, run_call, scanned, h0, h1, h2]⟩
  · by_cases h4 : code = 0x45
    · refine ⟨.E1_1D, ?_⟩
      simp only [matrix_scan, scan_call, run_call, scanned, h0, h4, if_true, if_false]
      cases hx : matrix_make m 0x55 <;> simp_all
    · exact ⟨.INIT, by simp [matrix_scan, scan_call, run_call, scanned, h0, h4]⟩
  · by_cases h4 : code = 0x45
    · refine ⟨.E1_9D, ?_⟩
      simp only [matrix_scan, scan_call, run_call, scanned, h0, h4, if_true, if_false]
      cases hx : matrix_break m 0x55 <;> simp_all
    · exact ⟨.INIT, by simp [matrix_scan, scan_call, run_call, scanned, h0, h4]⟩

/-- Every argument that an arm of `matrix_scan` passes to `matrix_make` or
`matrix_break` is below `0x80`. -/
theorem scan_call_code_lt (state : ScanState) (code : Nat) (k : MatrixCall)
    (h : scan_call state code = some k) : k.code < 0x80 := by
  have hand : code &&& 0x7F < 0x80 := Nat.and_lt_two_pow code (by decide : 0x7F < 2 ^ 7)
  have hmv : ∀ x, x < 0x80 → move_e0code x < 0x80 := by decide
  unfold scan_call at h
  by_cases h0 : code = 0
  · simp [h0] at h
  rw [if_neg h0] at h
  cases state <;> simp only at h
  · split_ifs at h with h1 h2 h3
    · cases h; exact h3
    · cases h; exact hand
  · split_ifs at h with hf h3
    · cases h; exact hmv _ h3
    · cases h; exact hmv _ hand
  · cases h
  · split_ifs at h
    cases h; decide
  · split_ifs at h
    cases h; decide

/-- A call with an argument below `0x80` returns, keeps the matrix well formed
and changes the bit of its argument at most. -/
theorem run_call_spec (m : List Nat) (call : Option MatrixCall) (hm : WellFormed m)
    (hc : ∀ k, call = some k → k.code < 0x80) :
    ∃ m', run_call m call = some m' ∧ WellFormed m' ∧
      ∃ r0 c0, ∀ r c, ¬ (r = r0 ∧ c = c0) →
        matrix_is_on m' r c = matrix_is_on m r c := by
  cases call with
  | none => exact ⟨m, rfl, hm, 0, 0, fun _ _ _ => rfl⟩
  | some k =>
    cases k with
    | make code =>
      obtain ⟨m', e, wf, hbit⟩ := matrix_make_spec m code hm (hc _ rfl)
      exact ⟨m', e, wf, ROW code, COL code, fun r c h => by rw [hbit, if_neg h]⟩
    | brk code =>
      obtain ⟨m', e, wf, hbit⟩ := matrix_break_spec m code hm (hc _ rfl)
      exact ⟨m', e, wf, ROW code, COL code, fun r c h => by rw [hbit, if_neg h]⟩

/-- One call of `matrix_scan` on a well-formed matrix returns: 0 with nothing
changed when no byte is pending, 1 otherwise, with a well-formed matrix that
is the one left by the call of the arm and differs from the old one in one
bit at most. -/
theorem matrix_scan_spec (d : Decoder) (code : Nat) (hm : WellFormed d.matrix) :
    ∃ d', matrix_scan d code = some (if code = 0 then 0 else 1, d')
      ∧ WellFormed d'.matrix
      ∧ run_call d.matrix (scan_call d.state code) = some d'.matrix
      ∧ ∃ r0 c0, ∀ r c, ¬ (r = r0 ∧ c = c0) →
          matrix_is_on d'.matrix r c = matrix_is_on d.matrix r c := by
  obtain ⟨s', e⟩ := matrix_scan_eq_run_call d code
  obtain ⟨m', e', wf, hbit⟩ := run_call_spec d.matrix (scan_call d.state code) hm
    (fun k hk => scan_call_code_lt d.state code k hk)
  exact ⟨⟨s', m'⟩, by rw [e, e']; rfl, wf, e', hbit⟩

/-- Every byte sequence is decoded to the end, and the matrix stays well
formed. -/
theorem feed_spec (bytes : List Nat) (d : Decoder) (hm : WellFormed d.matrix) :
    ∃ d', feed d bytes = some d' ∧ WellFormed d'.matrix := by
  induction bytes generalizing d with
  | nil => exact ⟨d, rfl, hm⟩
  | cons code rest ih =>
    obtain ⟨d1, e, wf, -, -⟩ := matrix_scan_spec d code hm
    obtain ⟨d2, e2, wf2⟩ := ih d1 wf
    exact ⟨d2, by simp only [feed, e, e2], wf2⟩

/-- Two matrices with the same bits are the same matrix. -/
theorem matrix_ext (m1 m2 : List Nat)
    (h : ∀ r c, matrix_is_on m1 r c = matrix_is_on m2 r c) : m1 = m2 := by
  apply List.ext_getElem?
  intro r
  have hr := h r
  simp only [matrix_is_on_eq] at hr
  cases h1 : m1[r]? with
  | none =>
    cases h2 : m2[r]? with
    | none => rfl
    | some v2 => have := hr 0; rw [h1, h2] at this; simp at this
  | some v1 =>
    cases h2 : m2[r]? with
    | none => have := hr 0; rw [h1, h2] at this; simp at this
    | some v2 =>
      congr 1
      apply Nat.eq_of_testBit_eq
      intro i
      have := hr i
      rw [h1, h2] at this
      simpa using this

theorem matrix_make_of_on (m : List Nat) (code : Nat)
    (h : matrix_is_on m (ROW code) (COL code) = some true) :
    matrix_make m code = some m := by
  simp [matrix_make, h]

theorem matrix_break_of_off (m : List Nat) (code : Nat)
    (h : matrix_is_on m (ROW code) (COL code) = some false) :
    matrix_break m code = some m := by
  simp [matrix_break, h]

theorem released_not_on (r c : Nat) : matrix_is_on released r c ≠ some true := by
  rw [matrix_is_on_eq]
  simp only [released, List.getElem?_replicate]
  split_ifs <;> simp

/-- A code below `0x80` is determined by its row and its column. -/
theorem code_of_ROW_COL (x y : Nat) (hr : ROW x = ROW y) (hc : COL x = COL y) :
    x = y := by
  unfold ROW at hr
  unfold COL at hc
  rw [Nat.shiftRight_eq_div_pow, Nat.shiftRight_eq_div_pow] at hr
  have hx : x &&& 0x07 = x % 2 ^ 3 := Nat.and_pow_two_sub_one_eq_mod x 3
  have hy : y &&& 0x07 = y % 2 ^ 3 := Nat.and_pow_two_sub_one_eq_mod y 3
  rw [hx, hy] at hc
  omega

/-! ## The decoder fed with byte sequences -/

/-- C1: the byte `0x45` that ends a Pause sequence does not bring the decoder
back to `INIT`.  Consumed in `E1_1D` it presses Pause and the state stays
`E1_1D`; consumed in `E1_9D` it releases Pause and the state stays `E1_9D`.
Every other transition is the one of `next_state_table`. -/
theorem C1_pause_terminator_keeps_state :
    matrix_scan ⟨.E1_1D, released⟩ 0x45
        = some (1, ⟨.E1_1D, [0, 0, 0, 0, 0, 0, 0, 0, 0, 0, 0x20, 0, 0, 0, 0, 0]⟩)
      ∧ matrix_scan ⟨.E1_9D, released⟩ 0x45 = some (1, ⟨.E1_9D, released⟩) := by
  decide

/-- C2, as stated, fails at `c = 0x00`: the host returns `0` when it has
no byte, `matrix_scan` returns `0` without looking at the state, and bit
`(0, 0)` of a released matrix stays clear. -/
theorem C2_counterexample :
    matrix_scan ⟨.INIT, released⟩ 0x00 = some (0, ⟨.INIT, released⟩)
      ∧ matrix_get_row released (ROW 0x00) = some 0
      ∧ Nat.testBit 0 (COL 0x00) = false := by
  decide

/-- C2 (amended): for every code `c` in `[0x01, 0x7F]` and every matrix, with
the decoder in `INIT`, one call of `matrix_scan` receiving `c` consumes it and
leaves bit `c & 7` of `matrix_get_row(c >> 3)` set. -/
theorem C2_make_sets_bit (d : Decoder) (c : Nat) (hlo : 0x01 ≤ c) (hhi : c ≤ 0x7F)
    (hs : d.state = .INIT) (hm : WellFormed d.matrix) :
    ∃ d' v, matrix_scan d c = some (1, d')
      ∧ matrix_get_row d'.matrix (c >>> 3) = some v
      ∧ v.testBit (c &&& 7) = true := by
  obtain ⟨m', e, -, hbit⟩ := matrix_make_spec d.matrix c hm (by omega)
  have h := hbit (ROW c) (COL c)
  rw [if_pos ⟨rfl, rfl⟩, matrix_is_on_eq] at h
  cases hv : m'[ROW c]? with
  | none => rw [hv] at h; simp at h
  | some v =>
    rw [hv] at h
    refine ⟨⟨.INIT, m'⟩, v, ?_, hv, ?_⟩
    · rw [scan_INIT_make d c hs (by omega) (by omega), e]; rfl
    · simpa [COL] using h

theorem C2_make_sets_bit_witness :
    ∃ d' v, matrix_scan ⟨.INIT, released⟩ 0x1E = some (1, d')
      ∧ matrix_get_row d'.matrix (0x1E >>> 3) = some v
      ∧ v.testBit (0x1E &&& 7) = true :=
  C2_make_sets_bit ⟨.INIT, released⟩ 0x1E (by decide) (by decide) rfl (by decide)

/-- C3, as stated, fails at `c = 0x60`: `c | 0x80` is the prefix `0xE0`,
which in `INIT` only moves the decoder to `E0`; the bit set by the make code
stays set. -/
theorem C3_counterexample :
    feed ⟨.INIT, released⟩ [0x60, 0x60 ||| 0x80]
        = some ⟨.E0, [0, 0, 0, 0, 0, 0, 0, 0, 0, 0, 0, 0, 1, 0, 0, 0]⟩
      ∧ matrix_is_on [0, 0, 0, 0, 0, 0, 0, 0, 0, 0, 0, 0, 1, 0, 0, 0]
          (ROW 0x60) (COL 0x60) = some true := by
  decide

/-- C3 (amended): for every code `c` in `[0x00, 0x7F]` other than `0x60` and
`0x61` (whose break bytes are the prefixes `0xE0` and `0xE1`) and every
matrix, with the decoder in `INIT`, feeding `c` and then `c | 0x80` leaves bit
`(c >> 3, c & 7)` clear. -/
theorem C3_break_clears_bit (d : Decoder) (c : Nat) (hhi : c ≤ 0x7F)
    (h60 : c ≠ 0x60) (h61 : c ≠ 0x61)
    (hs : d.state = .INIT) (hm : WellFormed d.matrix) :
    ∃ d', feed d [c, c ||| 0x80] = some d'
      ∧ matrix_is_on d'.matrix (ROW c) (COL c) = some false := by
  have hc : c < 0x80 := by omega
  -- the first call: either no byte (`c = 0`) or a make
  have first : ∃ d1, matrix_scan d c = some d1 ∧ d1.2.state = .INIT
      ∧ WellFormed d1.2.matrix := by
    by_cases h0 : c = 0
    · exact ⟨(0, d), by simp [matrix_scan, h0], hs, hm⟩
    · obtain ⟨m', e, wf, -⟩ := matrix_make_spec d.matrix c hm hc
      exact ⟨(1, ⟨.INIT, m'⟩), by rw [scan_INIT_make d c hs h0 hc, e]; rfl, rfl, wf⟩
  obtain ⟨d1, e1, hs1, hm1⟩ := first
  obtain ⟨m2, e2, -, hbit⟩ := matrix_break_spec d1.2.matrix c hm1 hc
  refine ⟨⟨.INIT, m2⟩, ?_, ?_⟩
  · have step2 : matrix_scan d1.2 (c ||| 0x80) = some (1, ⟨.INIT, m2⟩) := by
      rw [or_0x80 c hc,
        scan_INIT_break d1.2 (c + 0x80) hs1 (by omega) (by omega) (by omega),
        add_0x80_and c hc, e2]
      rfl
    simp [feed, e1, step2]
  · have h := hbit (ROW c) (COL c)
    rwa [if_pos ⟨rfl, rfl⟩] at h

theorem C3_break_clears_bit_witness :
    ∃ d', feed ⟨.INIT, released⟩ [0x1E, 0x1E ||| 0x80] = some d'
      ∧ matrix_is_on d'.matrix (ROW 0x1E) (COL 0x1E) = some false :=
  C3_break_clears_bit ⟨.INIT, released⟩ 0x1E (by decide) (by decide) (by decide) rfl
    (by decide)

/-- C4: after `[0xE1, 0x1D, 0x45]` the decoder is still in `E1_1D`, so the
`0xE1` of the second sequence is dropped, `0x9D` is taken as the break of code
`0x1D` and `0x45` as the make of code `0x45`: the Pause bit (row 10, column 5)
ends set. -/
theorem C4_pause_release_not_decoded :
    feed ⟨.INIT, released⟩ [0xE1, 0x1D, 0x45]
        = some ⟨.E1_1D, [0, 0, 0, 0, 0, 0, 0, 0, 0, 0, 0x20, 0, 0, 0, 0, 0]⟩
      ∧ feed ⟨.INIT, released⟩ [0xE1, 0x1D, 0x45, 0xE1, 0x9D, 0x45]
        = some ⟨.INIT, [0, 0, 0, 0, 0, 0, 0, 0, 0x20, 0, 0x20, 0, 0, 0, 0, 0]⟩
      ∧ matrix_is_on [0, 0, 0, 0, 0, 0, 0, 0, 0x20, 0, 0x20, 0, 0, 0, 0, 0]
          (ROW 0x55) (COL 0x55) = some true := by
  decide

/-- C5: for every matrix, with the decoder in `INIT`, feeding
`[0xE1, 0x1D, 0x45]` sets the Pause bit (code `0x55`) and leaves every other
matrix bit as it was. -/
theorem C5_pause_make (d : Decoder) (hs : d.state = .INIT)
    (hm : WellFormed d.matrix) :
    ∃ d', feed d [0xE1, 0x1D, 0x45] = some d'
      ∧ matrix_is_on d'.matrix (ROW 0x55) (COL 0x55) = some true
      ∧ ∀ r c, ¬ (r = ROW 0x55 ∧ c = COL 0x55) →
          matrix_is_on d'.matrix r c = matrix_is_on d.matrix r c := by
  obtain ⟨s, m⟩ := d
  simp only at hs hm
  subst hs
  obtain ⟨m', e, -, hbit⟩ := matrix_make_spec m 0x55 hm (by decide)
  refine ⟨⟨.E1_1D, m'⟩, ?_, ?_, ?_⟩
  · simp [feed, matrix_scan, scanned, e]
  · rw [hbit, if_pos ⟨rfl, rfl⟩]
  · intro r c h
    rw [hbit, if_neg h]

theorem C5_pause_make_witness :
    ∃ d', feed ⟨.INIT, released⟩ [0xE1, 0x1D, 0x45] = some d'
      ∧ matrix_is_on d'.matrix (ROW 0x55) (COL 0x55) = some true
      ∧ ∀ r c, ¬ (r = ROW 0x55 ∧ c = COL 0x55) →
          matrix_is_on d'.matrix r c = matrix_is_on released r c :=
  C5_pause_make ⟨.INIT, released⟩ rfl (by decide)

/-- C6: for every matrix and every non-zero byte `b` other than `0x45`, with
the decoder in `INIT`, feeding `[0xE1, 0x1D, b]` leaves the matrix as it was
and the decoder in `INIT`; so does feeding `[0xE1, 0x9D, b]`. -/
theorem C6_wrong_terminator (d : Decoder) (b : Nat) (hs : d.state = .INIT)
    (h0 : b ≠ 0) (h45 : b ≠ 0x45) :
    feed d [0xE1, 0x1D, b] = some ⟨.INIT, d.matrix⟩
      ∧ feed d [0xE1, 0x9D, b] = some ⟨.INIT, d.matrix⟩ := by
  obtain ⟨s, m⟩ := d
  simp only at hs
  subst hs
  constructor <;> simp [feed, matrix_scan, scanned, h0, h45]

theorem C6_wrong_terminator_witness :
    feed ⟨.INIT, released⟩ [0xE1, 0x1D, 0x99] = some ⟨.INIT, released⟩
      ∧ feed ⟨.INIT, released⟩ [0xE1, 0x9D, 0x99] = some ⟨.INIT, released⟩ :=
  C6_wrong_terminator ⟨.INIT, released⟩ 0x99 rfl (by decide) (by decide)

/-- C8: for every matrix and every `b` among `0x2A, 0xAA, 0x36, 0xB6`, with
the decoder in `INIT`, feeding `[0xE0, b]` leaves the matrix as it was and the
decoder in `INIT`; a plain make code `c` in `0x01..0x7F` fed next sets the bit
of `c` and changes no other bit. -/
theorem C8_fake_shift_ignored (d : Decoder) (b c : Nat)
    (hb : b = 0x2A ∨ b = 0xAA ∨ b = 0x36 ∨ b = 0xB6)
    (hlo : 0x01 ≤ c) (hhi : c ≤ 0x7F)
    (hs : d.state = .INIT) (hm : WellFormed d.matrix) :
    feed d [0xE0, b] = some ⟨.INIT, d.matrix⟩
      ∧ ∃ d', feed d [0xE0, b, c] = some d'
        ∧ d'.state = .INIT
        ∧ matrix_is_on d'.matrix (ROW c) (COL c) = some true
        ∧ ∀ r k, ¬ (r = ROW c ∧ k = COL c) →
            matrix_is_on d'.matrix r k = matrix_is_on d.matrix r k := by
  have h0 : b ≠ 0 := by omega
  have hc0 : c ≠ 0 := by omega
  have hc1 : c ≠ 0xE0 := by omega
  have hc2 : c ≠ 0xE1 := by omega
  have hc3 : c < 0x80 := by omega
  obtain ⟨s, m⟩ := d
  simp only at hs hm
  subst hs
  obtain ⟨m', e, -, hbit⟩ := matrix_make_spec m c hm hc3
  refine ⟨?_, ⟨.INIT, m'⟩, ?_, rfl, ?_, ?_⟩
  · simp [feed, matrix_scan, scanned, h0, hb]
  · simp [feed, matrix_scan, scanned, h0, hb, hc0, hc1, hc2, hc3, e]
  · rw [hbit, if_pos ⟨rfl, rfl⟩]
  · intro r k h
    rw [hbit, if_neg h]

theorem C8_fake_shift_ignored_witness :
    feed ⟨.INIT, released⟩ [0xE0, 0x2A] = some ⟨.INIT, released⟩
      ∧ ∃ d', feed ⟨.INIT, released⟩ [0xE0, 0x2A, 0x1E] = some d'
        ∧ d'.state = .INIT
        ∧ matrix_is_on d'.matrix (ROW 0x1E) (COL 0x1E) = some true
        ∧ ∀ r k, ¬ (r = ROW 0x1E ∧ k = COL 0x1E) →
            matrix_is_on d'.matrix r k = matrix_is_on released r k :=
  C8_fake_shift_ignored ⟨.INIT, released⟩ 0x2A 0x1E (by decide) (by decide) (by decide)
    rfl (by decide)

/-- C9: for every matrix, with the decoder in `INIT`, both calls of
`matrix_scan` fed `0xE0` and `0xE0` return (with value 1), the decoder ends in
`INIT`, and every row afterwards is a bitwise subset of the row before: no bit
goes from clear to set. -/
theorem C9_repeated_E0 (d : Decoder) (hs : d.state = .INIT)
    (hm : WellFormed d.matrix) :
    ∃ d1 d2, matrix_scan d 0xE0 = some (1, d1)
      ∧ matrix_scan d1 0xE0 = some (1, d2)
      ∧ d2.state = .INIT
      ∧ (∀ r c, matrix_is_on d2.matrix r c = some true →
          matrix_is_on d.matrix r c = some true)
      ∧ ∀ r, r < MATRIX_ROWS → ∃ v v', matrix_get_row d.matrix r = some v
          ∧ matrix_get_row d2.matrix r = some v' ∧ v' &&& v = v' := by
  obtain ⟨s, m⟩ := d
  simp only at hs hm
  subst hs
  obtain ⟨m', e, wf, hbit⟩ := matrix_break_spec m 0x60 hm (by decide)
  have e' : matrix_break m (move_e0code (0xE0 &&& 0x7F)) = some m' := e
  have sub : ∀ r c, matrix_is_on m' r c = some true → matrix_is_on m r c = some true := by
    intro r c h
    rw [hbit] at h
    by_cases hrc : r = ROW 0x60 ∧ c = COL 0x60
    · rw [if_pos hrc] at h; simp at h
    · rwa [if_neg hrc] at h
  refine ⟨⟨.E0, m⟩, ⟨.INIT, m'⟩, by simp [matrix_scan, scanned], ?_, rfl, sub, ?_⟩
  · simp [matrix_scan, scanned, e']
  · intro r hr
    obtain ⟨v, hv, -⟩ := wellFormed_getElem m hm r hr
    obtain ⟨v', hv', -⟩ := wellFormed_getElem m' wf r hr
    refine ⟨v, v', hv, hv', ?_⟩
    apply Nat.eq_of_testBit_eq
    intro i
    have h := sub r i
    rw [matrix_is_on_eq, matrix_is_on_eq, hv, hv'] at h
    simp only [Option.map_some', Option.some.injEq] at h
    rw [Nat.testBit_and]
    cases hb : v'.testBit i with
    | false => rfl
    | true => simp [h hb]

theorem C9_repeated_E0_witness :
    ∃ d1 d2, matrix_scan ⟨.INIT, List.replicate 16 0xFF⟩ 0xE0 = some (1, d1)
      ∧ matrix_scan d1 0xE0 = some (1, d2)
      ∧ d2.state = .INIT
      ∧ (∀ r c, matrix_is_on d2.matrix r c = some true →
          matrix_is_on (List.replicate 16 0xFF) r c = some true)
      ∧ ∀ r, r < MATRIX_ROWS → ∃ v v',
          matrix_get_row (List.replicate 16 0xFF) r = some v
          ∧ matrix_get_row d2.matrix r = some v' ∧ v' &&& v = v' :=
  C9_repeated_E0 ⟨.INIT, List.replicate 16 0xFF⟩ rfl (by decide)

/-- C10, as stated, fails for a prior state other than `INIT`: `matrix_init`
zeroes the matrix, and the variable `state`, local to `matrix_scan`, keeps its
value. -/
theorem C10_counterexample :
    matrix_init ⟨.E0, released⟩ = ⟨.E0, released⟩
      ∧ decide ((matrix_init ⟨.E0, released⟩).state = .INIT) = false := by
  decide

/-- C10 (amended): for every prior matrix and every prior decoder state, after
`matrix_init` every matrix row is zero and the decoder state is the prior one
(so it is `INIT` whenever it was `INIT` before, as at start-up, where `state`
has its initial value). -/
theorem C10_init_zeroes_matrix (d : Decoder) (hm : WellFormed d.matrix) :
    (∀ r, r < MATRIX_ROWS → matrix_get_row (matrix_init d).matrix r = some 0)
      ∧ (matrix_init d).state = d.state
      ∧ (d.state = .INIT → (matrix_init d).state = .INIT) := by
  have hz : (matrix_init d).matrix = zero_rows d.matrix := by simp only [matrix_init]
  have hst : (matrix_init d).state = d.state := by simp only [matrix_init]
  refine ⟨?_, hst, fun h => hst.trans h⟩
  intro r hr
  rw [hz]
  exact zero_rows_get d.matrix hm.1 r hr

theorem C10_init_zeroes_matrix_witness :
    (∀ r, r < MATRIX_ROWS →
        matrix_get_row (matrix_init ⟨.INIT, List.replicate 16 0xFF⟩).matrix r = some 0)
      ∧ (matrix_init ⟨.INIT, List.replicate 16 0xFF⟩).state = .INIT
      ∧ (ScanState.INIT = ScanState.INIT →
          (matrix_init ⟨.INIT, List.replicate 16 0xFF⟩).state = .INIT) :=
  C10_init_zeroes_matrix ⟨.INIT, List.replicate 16 0xFF⟩ (by decide)

/-- C11: after any byte sequence fed to `matrix_scan` (so for every matrix and
every decoder state), `matrix_clear` leaves `matrix_get_row(r)` equal to 0 for
every row `r < MATRIX_ROWS` and the decoder state as it was before the call. -/
theorem C11_clear_zeroes_rows (d0 : Decoder) (bytes : List Nat)
    (hm : WellFormed d0.matrix) :
    ∃ d, feed d0 bytes = some d
      ∧ (∀ r, r < MATRIX_ROWS → matrix_get_row (matrix_clear d).matrix r = some 0)
      ∧ (matrix_clear d).state = d.state := by
  obtain ⟨d, e, wf⟩ := feed_spec bytes d0 hm
  have hz : (matrix_clear d).matrix = zero_rows d.matrix := by simp only [matrix_clear]
  have hst : (matrix_clear d).state = d.state := by simp only [matrix_clear]
  refine ⟨d, e, ?_, hst⟩
  intro r hr
  rw [hz]
  exact zero_rows_get d.matrix wf.1 r hr

theorem C11_clear_zeroes_rows_witness :
    ∃ d, feed ⟨.INIT, released⟩ [0x1E, 0xE0, 0x48, 0xE1] = some d
      ∧ (∀ r, r < MATRIX_ROWS → matrix_get_row (matrix_clear d).matrix r = some 0)
      ∧ (matrix_clear d).state = d.state :=
  C11_clear_zeroes_rows ⟨.INIT, released⟩ [0x1E, 0xE0, 0x48, 0xE1] (by decide)

/-- C12: `move_e0code` is injective on the codes that have a `case` of their
own: two distinct codes of `e0_cases` have distinct images. -/
theorem C12_table_injective (a b : Nat) (ha : a ∈ e0_cases) (hb : b ∈ e0_cases)
    (hab : a ≠ b) : move_e0code a ≠ move_e0code b := by
  have table : ∀ x ∈ e0_cases, ∀ y ∈ e0_cases, x ≠ y → move_e0code x ≠ move_e0code y := by
    decide
  exact table a ha b hb hab

theorem C12_table_injective_witness :
    0x5C ∈ e0_cases ∧ 0x5B ∈ e0_cases ∧ move_e0code 0x5C ≠ move_e0code 0x5B :=
  ⟨by decide, by decide,
    C12_table_injective 0x5C 0x5B (by decide) (by decide) (by decide)⟩

/-- C13: every code with a `case` in `move_e0code` is sent to a different code,
which lies in `0x54..0x7F` and so is none of the normal codes `0x01..0x53`. -/
theorem C13_table_range (b : Nat) (hb : b ∈ e0_cases) :
    move_e0code b ≠ b ∧ 0x54 ≤ move_e0code b ∧ move_e0code b ≤ 0x7F
      ∧ ¬ (0x01 ≤ move_e0code b ∧ move_e0code b ≤ 0x53) := by
  have table : ∀ x ∈ e0_cases, move_e0code x ≠ x ∧ 0x54 ≤ move_e0code x
      ∧ move_e0code x ≤ 0x7F ∧ ¬ (0x01 ≤ move_e0code x ∧ move_e0code x ≤ 0x53) := by
    decide
  exact table b hb

theorem C13_table_range_witness :
    0x1C ∈ e0_cases ∧ move_e0code 0x1C ≠ 0x1C ∧ 0x54 ≤ move_e0code 0x1C
      ∧ move_e0code 0x1C ≤ 0x7F
      ∧ ¬ (0x01 ≤ move_e0code 0x1C ∧ move_e0code 0x1C ≤ 0x53) :=
  ⟨by decide, C13_table_range 0x1C (by decide)⟩

/-- C14: for every make code `c` (a byte in `0x01..0x7F`), starting from the
all-zero matrix with the decoder in `INIT`, feeding `c` twice leaves the same
matrix as feeding it once, in which the bit of `c` is set and no other bit
is; `matrix_make(c)` on that matrix leaves it as it is. -/
theorem C14_make_twice (c : Nat) (hlo : 0x01 ≤ c) (hhi : c ≤ 0x7F) :
    ∃ d', feed ⟨.INIT, released⟩ [c] = some d'
      ∧ feed ⟨.INIT, released⟩ [c, c] = some d'
      ∧ (∀ r k, matrix_is_on d'.matrix r k = some true ↔ (r = ROW c ∧ k = COL c))
      ∧ matrix_make d'.matrix c = some d'.matrix := by
  have hc : c < 0x80 := by omega
  have h0 : c ≠ 0 := by omega
  obtain ⟨m', e, -, hbit⟩ := matrix_make_spec released c (by decide) hc
  have hon : matrix_is_on m' (ROW c) (COL c) = some true := by
    rw [hbit, if_pos ⟨rfl, rfl⟩]
  have idem : matrix_make m' c = some m' := matrix_make_of_on m' c hon
  have step1 : matrix_scan ⟨.INIT, released⟩ c = some (1, ⟨.INIT, m'⟩) := by
    rw [scan_INIT_make _ c rfl h0 hc, e]; rfl
  have step2 : matrix_scan ⟨.INIT, m'⟩ c = some (1, ⟨.INIT, m'⟩) := by
    rw [scan_INIT_make _ c rfl h0 hc, idem]; rfl
  refine ⟨⟨.INIT, m'⟩, ?_, ?_, ?_, idem⟩
  · simp only [feed, step1]
  · simp only [feed, step1, step2]
  · intro r k
    rw [hbit]
    by_cases h : r = ROW c ∧ k = COL c
    · simp [h]
    · simp only [if_neg h, h, iff_false]
      exact released_not_on r k

theorem C14_make_twice_witness :
    ∃ d', feed ⟨.INIT, released⟩ [0x1E] = some d'
      ∧ feed ⟨.INIT, released⟩ [0x1E, 0x1E] = some d'
      ∧ (∀ r k, matrix_is_on d'.matrix r k = some true ↔ (r = ROW 0x1E ∧ k = COL 0x1E))
      ∧ matrix_make d'.matrix 0x1E = some d'.matrix :=
  C14_make_twice 0x1E (by decide) (by decide)

/-- C15: for every matrix and every code `c <= 0x7F`, `matrix_break(c)` leaves
bit `(c >> 3, c & 7)` clear and every other bit as it was, leaves the matrix
as it was when that bit was clear already, and a second `matrix_break(c)`
changes nothing more. -/
theorem C15_break_idempotent (m : List Nat) (c : Nat) (hm : WellFormed m)
    (hc : c ≤ 0x7F) :
    ∃ m', matrix_break m c = some m'
      ∧ matrix_is_on m' (c >>> 3) (c &&& 7) = some false
      ∧ (∀ r k, ¬ (r = c >>> 3 ∧ k = c &&& 7) →
          matrix_is_on m' r k = matrix_is_on m r k)
      ∧ (matrix_is_on m (c >>> 3) (c &&& 7) = some false → m' = m)
      ∧ matrix_break m' c = some m' := by
  obtain ⟨m', e, -, hbit⟩ := matrix_break_spec m c hm (by omega)
  have hoff : matrix_is_on m' (ROW c) (COL c) = some false := by
    rw [hbit, if_pos ⟨rfl, rfl⟩]
  refine ⟨m', e, hoff, ?_, ?_, matrix_break_of_off m' c hoff⟩
  · intro r k h
    have h' : ¬ (r = ROW c ∧ k = COL c) := h
    rw [hbit, if_neg h']
  · intro h
    have e2 : matrix_break m c = some m := matrix_break_of_off m c h
    rw [e2] at e
    exact (Option.some.inj e).symm

theorem C15_break_idempotent_witness :
    ∃ m', matrix_break (List.replicate 16 0xFF) 0x1E = some m'
      ∧ matrix_is_on m' (0x1E >>> 3) (0x1E &&& 7) = some false
      ∧ (∀ r k, ¬ (r = 0x1E >>> 3 ∧ k = 0x1E &&& 7) →
          matrix_is_on m' r k = matrix_is_on (List.replicate 16 0xFF) r k)
      ∧ (matrix_is_on (List.replicate 16 0xFF) (0x1E >>> 3) (0x1E &&& 7) = some false →
          m' = List.replicate 16 0xFF)
      ∧ matrix_break m' 0x1E = some m' :=
  C15_break_idempotent (List.replicate 16 0xFF) 0x1E (by decide) (by decide)

/-- C16: for every decoder state and every received byte, the code that
`matrix_scan` passes to `matrix_make` or `matrix_break` is at most `0x7F`, its
row is at most 15 and below `MATRIX_ROWS`, and the call, hence `matrix_scan`,
returns: no access falls outside the matrix. -/
theorem C16_codes_in_range (d : Decoder) (code : Nat) (hm : WellFormed d.matrix) :
    (∀ k, scan_call d.state code = some k →
        k.code ≤ 0x7F ∧ k.code >>> 3 ≤ 15 ∧ ROW k.code < MATRIX_ROWS)
      ∧ ∃ ret d', matrix_scan d code = some (ret, d')
          ∧ run_call d.matrix (scan_call d.state code) = some d'.matrix := by
  constructor
  · intro k hk
    have h := scan_call_code_lt d.state code k hk
    have hrow := ROW_lt k.code h
    refine ⟨by omega, ?_, hrow⟩
    unfold ROW MATRIX_ROWS at hrow
    omega
  · obtain ⟨d', e, -, hrun, -⟩ := matrix_scan_spec d code hm
    exact ⟨_, d', e, hrun⟩

theorem C16_codes_in_range_witness :
    (∀ k, scan_call ScanState.E0 0xFF = some k →
        k.code ≤ 0x7F ∧ k.code >>> 3 ≤ 15 ∧ ROW k.code < MATRIX_ROWS)
      ∧ ∃ ret d', matrix_scan ⟨.E0, released⟩ 0xFF = some (ret, d')
          ∧ run_call released (scan_call ScanState.E0 0xFF) = some d'.matrix :=
  C16_codes_in_range ⟨.E0, released⟩ 0xFF (by decide)

/-- C17: when the host has no byte (`xt_host_recv` returns 0) `matrix_scan`
returns 0 and leaves decoder state and matrix as they were; for every byte
that the host delivers it returns 1. -/
theorem C17_scan_return_value (d : Decoder) (code : Nat) (hm : WellFormed d.matrix) :
    matrix_scan d 0 = some (0, d)
      ∧ (code ≠ 0 → ∃ d', matrix_scan d code = some (1, d')) := by
  refine ⟨by simp [matrix_scan], ?_⟩
  intro h0
  obtain ⟨d', e, -, -, -⟩ := matrix_scan_spec d code hm
  rw [if_neg h0] at e
  exact ⟨d', e⟩

theorem C17_scan_return_value_witness :
    matrix_scan ⟨.E0, released⟩ 0 = some (0, ⟨.E0, released⟩)
      ∧ ((0x48 : Nat) ≠ 0 → ∃ d', matrix_scan ⟨.E0, released⟩ 0x48 = some (1, d')) :=
  C17_scan_return_value ⟨.E0, released⟩ 0x48 (by decide)

/-- C18: for every escaped code `b` in `0x01..0x7F` other than `0x2A` and
`0x36`, and every matrix in which the bit of `move_e0code b` is clear, with
the decoder in `INIT`, feeding `[0xE0, b, 0xE0, b | 0x80]` leaves the matrix
exactly as it was and the decoder in `INIT`. -/
theorem C18_escaped_break_undoes_make (d : Decoder) (b : Nat)
    (hlo : 0x01 ≤ b) (hhi : b ≤ 0x7F) (h2A : b ≠ 0x2A) (h36 : b ≠ 0x36)
    (hs : d.state = .INIT) (hm : WellFormed d.matrix)
    (hclear : matrix_is_on d.matrix (ROW (move_e0code b)) (COL (move_e0code b))
      = some false) :
    feed d [0xE0, b, 0xE0, b ||| 0x80] = some ⟨.INIT, d.matrix⟩ := by
  have hb : b < 0x80 := by omega
  have hmv : ∀ x, x < 0x80 → move_e0code x < 0x80 := by decide
  obtain ⟨s, m⟩ := d
  simp only at hs hm hclear
  subst hs
  obtain ⟨m1, e1, wf1, hbit1⟩ := matrix_make_spec m (move_e0code b) hm (hmv b hb)
  obtain ⟨m2, e2, -, hbit2⟩ := matrix_break_spec m1 (move_e0code b) wf1 (hmv b hb)
  have back : m2 = m := by
    apply matrix_ext
    intro r c
    rw [hbit2]
    by_cases h : r = ROW (move_e0code b) ∧ c = COL (move_e0code b)
    · rw [if_pos h, h.1, h.2, hclear]
    · rw [if_neg h, hbit1, if_neg h]
  rw [back] at e2
  have h0 : b ≠ 0 := by omega
  have hfake : ¬ (b = 0x2A ∨ b = 0xAA ∨ b = 0x36 ∨ b = 0xB6) := by omega
  have step2 : matrix_scan ⟨.E0, m⟩ b = some (1, ⟨.INIT, m1⟩) := by
    simp [matrix_scan, scanned, h0, hfake, hb, e1]
  have h0' : b + 0x80 ≠ 0 := by omega
  have hfake' : ¬ (b + 0x80 = 0x2A ∨ b + 0x80 = 0xAA ∨ b + 0x80 = 0x36
      ∨ b + 0x80 = 0xB6) := by omega
  have hge : ¬ b + 0x80 < 0x80 := by omega
  have step4 : matrix_scan ⟨.E0, m1⟩ (b ||| 0x80) = some (1, ⟨.INIT, m⟩) := by
    rw [or_0x80 b hb]
    simp only [matrix_scan, h0', hfake', hge, if_false, add_0x80_and b hb, e2]
    rfl
  simp only [feed, scan_INIT_E0 ⟨.INIT, m⟩ rfl, scan_INIT_E0 ⟨.INIT, m1⟩ rfl, step2,
    step4]

theorem C18_escaped_break_undoes_make_witness :
    feed ⟨.INIT, released⟩ [0xE0, 0x48, 0xE0, 0x48 ||| 0x80] = some ⟨.INIT, released⟩ :=
  C18_escaped_break_undoes_make ⟨.INIT, released⟩ 0x48 (by decide) (by decide)
    (by decide) (by decide) rfl (by decide) (by decide)

/-- C19, as stated, fails at `a = 0x5A`, `b = 0x5B`: `0x5A` has no `case` and
passes through, `0x5B` is sent to `0x5A`, and `E0 5A` and `E0 5B` set the same
matrix bit. -/
theorem C19_counterexample :
    move_e0code 0x5A = 0x5A ∧ move_e0code 0x5B = 0x5A
      ∧ feed ⟨.INIT, released⟩ [0xE0, 0x5A] = feed ⟨.INIT, released⟩ [0xE0, 0x5B]
      ∧ feed ⟨.INIT, released⟩ [0xE0, 0x5A]
        = some ⟨.INIT, [0, 0, 0, 0, 0, 0, 0, 0, 0, 0, 0, 4, 0, 0, 0, 0]⟩ := by
  decide

/-- C19 (amended): for all `a ≠ b` in `0x00..0x7F`, `move_e0code a` and
`move_e0code b` are equal, and `E0 a` and `E0 b` use the same matrix bit,
exactly when `a` and `b` are the two codes of one of the sixteen pairs of
`e0_collisions`: a code with a `case` and its image, the image having no `case`
and passing through.  For every other pair the images and the bits differ. -/
theorem C19_collisions_exact (a b : Nat) (ha : a ≤ 0x7F) (hb : b ≤ 0x7F)
    (hab : a ≠ b) :
    e0_collisions
        = [(0x37, 0x54), (0x46, 0x55), (0x1C, 0x6F), (0x35, 0x7F), (0x5B, 0x5A),
           (0x48, 0x60), (0x4B, 0x61), (0x50, 0x62), (0x52, 0x71), (0x53, 0x72),
           (0x47, 0x74), (0x4F, 0x75), (0x49, 0x77), (0x51, 0x78), (0x1D, 0x7A),
           (0x38, 0x7C)]
      ∧ (move_e0code a = move_e0code b
          ↔ ((a, b) ∈ e0_collisions ∨ (b, a) ∈ e0_collisions))
      ∧ ((ROW (move_e0code a) = ROW (move_e0code b)
            ∧ COL (move_e0code a) = COL (move_e0code b))
          ↔ ((a, b) ∈ e0_collisions ∨ (b, a) ∈ e0_collisions)) := by
  have table : ∀ x ∈ e0_cases, ∀ y ∈ e0_cases, x ≠ y → move_e0code x ≠ move_e0code y := by
    decide
  have img : ∀ t ∈ e0_cases, move_e0code t ∉ e0_cases →
      (t, move_e0code t) ∈ e0_collisions := by
    decide
  have coll : ∀ p ∈ e0_collisions, move_e0code p.1 = move_e0code p.2 := by
    decide
  have pass : ∀ x, x ≤ 0x7F → x ∉ e0_cases → move_e0code x = x := by
    intro x hx hmem
    by_contra hne
    exact hmem ((mem_e0_cases_iff x (by omega)).mpr hne)
  have main : move_e0code a = move_e0code b
      ↔ ((a, b) ∈ e0_collisions ∨ (b, a) ∈ e0_collisions) := by
    constructor
    · intro heq
      by_cases hma : a ∈ e0_cases
      · by_cases hmb : b ∈ e0_cases
        · exact absurd heq (table a hma b hmb hab)
        · have hpb := pass b hb hmb
          have himg : move_e0code a = b := by rw [heq, hpb]
          have hmem := img a hma (by rw [himg]; exact hmb)
          rw [himg] at hmem
          exact Or.inl hmem
      · have hpa := pass a ha hma
        by_cases hmb : b ∈ e0_cases
        · have himg : move_e0code b = a := by rw [← heq, hpa]
          have hmem := img b hmb (by rw [himg]; exact hma)
          rw [himg] at hmem
          exact Or.inr hmem
        · have hpb := pass b hb hmb
          rw [hpa, hpb] at heq
          exact absurd heq hab
    · rintro (h | h)
      · exact coll _ h
      · exact (coll _ h).symm
  refine ⟨by decide, main, ?_, ?_⟩
  · intro h
    exact main.mp (code_of_ROW_COL _ _ h.1 h.2)
  · intro h
    rw [main.mpr h]
    exact ⟨rfl, rfl⟩

theorem C19_collisions_exact_witness :
    e0_collisions
        = [(0x37, 0x54), (0x46, 0x55), (0x1C, 0x6F), (0x35, 0x7F), (0x5B, 0x5A),
           (0x48, 0x60), (0x4B, 0x61), (0x50, 0x62), (0x52, 0x71), (0x53, 0x72),
           (0x47, 0x74), (0x4F, 0x75), (0x49, 0x77), (0x51, 0x78), (0x1D, 0x7A),
           (0x38, 0x7C)]
      ∧ (move_e0code 0x5A = move_e0code 0x5B
          ↔ (((0x5A : Nat), (0x5B : Nat)) ∈ e0_collisions
              ∨ ((0x5B : Nat), (0x5A : Nat)) ∈ e0_collisions))
      ∧ ((ROW (move_e0code 0x5A) = ROW (move_e0code 0x5B)
            ∧ COL (move_e0code 0x5A) = COL (move_e0code 0x5B))
          ↔ (((0x5A : Nat), (0x5B : Nat)) ∈ e0_collisions
              ∨ ((0x5B : Nat), (0x5A : Nat)) ∈ e0_collisions)) :=
  C19_collisions_exact 0x5A 0x5B (by decide) (by decide) (by decide)

/-- C20: for every decoder state, every matrix and every received byte, one
call of `matrix_scan` returns a matrix that differs from the old one in one
`(row, column)` position at most; it is the old matrix when the byte is `0xE0`
or `0xE1` received in `INIT`, and for every byte received in `E1`. -/
theorem C20_one_bit_per_call (d : Decoder) (code : Nat) (hm : WellFormed d.matrix) :
    ∃ ret d', matrix_scan d code = some (ret, d')
      ∧ (∃ r0 c0, ∀ r c, ¬ (r = r0 ∧ c = c0) →
          matrix_is_on d'.matrix r c = matrix_is_on d.matrix r c)
      ∧ (d.state = .INIT → code = 0xE0 ∨ code = 0xE1 → d'.matrix = d.matrix)
      ∧ (d.state = .E1 → d'.matrix = d.matrix) := by
  obtain ⟨d', e, -, hrun, hbit⟩ := matrix_scan_spec d code hm
  refine ⟨_, d', e, hbit, ?_, ?_⟩
  · intro hs hc
    have hnone : scan_call d.state code = none := by
      rcases hc with hc | hc <;> simp [scan_call, hs, hc]
    rw [hnone] at hrun
    exact (Option.some.inj hrun).symm
  · intro hs
    have hnone : scan_call d.state code = none := by
      simp [scan_call, hs]
    rw [hnone] at hrun
    exact (Option.some.inj hrun).symm

theorem C20_one_bit_per_call_witness :
    ∃ ret d', matrix_scan ⟨.E0, List.replicate 16 0xFF⟩ 0xC8 = some (ret, d')
      ∧ (∃ r0 c0, ∀ r c, ¬ (r = r0 ∧ c = c0) →
          matrix_is_on d'.matrix r c = matrix_is_on (List.replicate 16 0xFF) r c)
      ∧ (ScanState.E0 = ScanState.INIT → (0xC8 : Nat) = 0xE0 ∨ (0xC8 : Nat) = 0xE1 →
          d'.matrix = List.replicate 16 0xFF)
      ∧ (ScanState.E0 = ScanState.E1 → d'.matrix = List.replicate 16 0xFF) :=
  C20_one_bit_per_call ⟨.E0, List.replicate 16 0xFF⟩ 0xC8 (by decide)

end XtUsb
